import Mathlib

/-!
Verification of the dephost PyPI mirror core (src/app/pypi/service.py,
src/app/pypi/index_manager.py, src/app/pypi/package_manager.py).

Python strings are modelled as lists of Unicode code points (`List Nat`),
scoped to the ASCII fragment exercised by the code and its callers.
Useful code points: 32 space, 37 percent, 45 hyphen, 46 dot, 47 slash,
95 underscore.
-/

/-- Code points of a Lean string literal, for stating concrete examples. -/
def codes (s : String) : List Nat := s.data.map Char.toNat

/-- One character of Python `str.lower()` restricted to ASCII. -/
def lowerChar (n : Nat) : Nat := if 65 ≤ n ∧ n ≤ 90 then n + 32 else n

/-- Python `str.lower()` on ASCII text. -/
def pyLower (s : List Nat) : List Nat := s.map lowerChar

/-- Python `str.replace(a, b)` where `a` and `b` are single characters. -/
def replaceChar (a b : Nat) (s : List Nat) : List Nat :=
  s.map (fun c => if c = a then b else c)

/-- From src/app/pypi/service.py, `normalize_package_name`:
    `package_name.lower().replace("_", "-").replace(" ", "-")`.
    The identical method appears as `PackageManager.normalize_package_name`
    in src/app/pypi/package_manager.py. -/
def normalize_package_name (s : List Nat) : List Nat :=
  replaceChar 32 45 (replaceChar 95 45 (pyLower s))

/-- Characters `urllib.parse.quote` leaves unescaped with its default
    `safe="/"`: ASCII alphanumerics plus underscore, dot, hyphen, tilde
    and the slash. -/
def quoteSafe (n : Nat) : Bool :=
  decide ((48 ≤ n ∧ n ≤ 57) ∨ (65 ≤ n ∧ n ≤ 90) ∨ (97 ≤ n ∧ n ≤ 122) ∨
    n = 95 ∨ n = 46 ∨ n = 45 ∨ n = 126 ∨ n = 47)

/-- Upper-case hexadecimal digit, as produced by `urllib.parse.quote`. -/
def hexDigit (n : Nat) : Nat := if n < 10 then 48 + n else 55 + n

/-- Percent-encoding of one ASCII character under `urllib.parse.quote`. -/
def quoteChar (n : Nat) : List Nat :=
  if quoteSafe n then [n] else [37, hexDigit (n / 16), hexDigit (n % 16)]

/-- `urllib.parse.quote` on an ASCII string with the default safe set. -/
def pyQuote (s : List Nat) : List Nat := (s.map quoteChar).flatten

/-- From src/app/pypi/service.py, `normalize_package_path`:
    `quote(normalize_package_name(package_name))`. -/
def normalize_package_path (s : List Nat) : List Nat :=
  pyQuote (normalize_package_name s)

/-- Split a list at its first dot (code point 46): returns the part before
    and the part after, or `none` when there is no dot.  Applied to reversed
    strings this realises Python `str.rsplit(".", ...)`. -/
def splitFirstDot : List Nat → Option (List Nat × List Nat)
  | [] => none
  | c :: cs =>
    if c = 46 then some ([], cs)
    else (splitFirstDot cs).map (fun p => (c :: p.1, p.2))

/-- From src/app/pypi/service.py, `normalize_filename`:
    `name_parts = filename.rsplit(".", 2)`; when there is more than one
    part, underscores are replaced by hyphens in `name_parts[0]` only and
    the parts are rejoined with dots; otherwise the whole name is
    hyphenated; the result is passed through `quote`.  The two `rsplit`
    cuts are found as the first and second dot of the reversed string.
    The identical method appears as `PackageManager.normalize_filename`. -/
def normalize_filename (s : List Nat) : List Nat :=
  match splitFirstDot s.reverse with
  | none => pyQuote (replaceChar 95 45 s)
  | some (lastr, restr) =>
    match splitFirstDot restr with
    | none => pyQuote (replaceChar 95 45 restr.reverse ++ 46 :: lastr.reverse)
    | some (midr, baser) =>
      pyQuote (replaceChar 95 45 baser.reverse ++
        46 :: (midr.reverse ++ 46 :: lastr.reverse))

/-- Is the code point an underscore or a space? -/
def isSep (c : Nat) : Bool := c == 95 || c == 32

/-- Run-collapsing worker: the flag records whether the previous character
    was a separator, so a whole run of separators emits a single hyphen. -/
def collapseGo : Bool → List Nat → List Nat
  | _, [] => []
  | prevSep, c :: rest =>
    if isSep c then
      (if prevSep then collapseGo true rest else 45 :: collapseGo true rest)
    else c :: collapseGo false rest

/-- The spec-side description of `normalizeName` (spec section 4.1):
    lowercase, then replace each maximal run of underscores and spaces with
    a single hyphen.  Written from the spec wording, for comparison with
    `normalize_package_name` as translated from the source. -/
def specNormalizeName (s : List Nat) : List Nat := collapseGo false (pyLower s)

/-- Lexicographic comparison of code-point lists, Python string `<=`. -/
def lexLe : List Nat → List Nat → Bool
  | [], _ => true
  | _ :: _, [] => false
  | a :: as, b :: bs => if a < b then true else if b < a then false else lexLe as bs

/-- `lexLe` as a relation, for use with `List.insertionSort`. -/
def lexLeR (a b : List Nat) : Prop := lexLe a b = true

instance : DecidableRel lexLeR :=
  fun a b => inferInstanceAs (Decidable (lexLe a b = true))

/-- Python `sorted` on a list of strings (extensionally: the unique
    lexicographically sorted stable rearrangement). -/
def pySortedList (l : List (List Nat)) : List (List Nat) :=
  List.insertionSort lexLeR l

/-- Python substring test `needle in hay`. -/
def containsSub (needle : List Nat) : List Nat → Bool
  | [] => needle.isPrefixOf []
  | c :: rest => needle.isPrefixOf (c :: rest) || containsSub needle rest

/-- Python `url.rstrip("/")`. -/
def rstripSlash (s : List Nat) : List Nat :=
  (s.reverse.dropWhile (fun c => c == 47)).reverse

/-- The test `"/simple" in source_url` from the source. -/
def isSimpleSource (u : List Nat) : Bool := containsSub (codes "/simple") u

/-! ### IndexStore (src/app/pypi/index_manager.py, PyPIIndexManager) -/

/-- The in-memory state of `PyPIIndexManager`.  Python sets are modelled as
    duplicate-free lists; timestamps are integers. -/
structure IndexState where
  localIndex : List (List Nat)
  remoteIndex : List (List Nat)
  lastIndexUpdate : Option Int
  cacheTtl : Int
deriving DecidableEq

/-- Python set union `s | t`, modelled on duplicate-free lists: elements of
    the left operand not already present are added to the right operand. -/
def pyUnion (l₁ l₂ : List (List Nat)) : List (List Nat) :=
  l₁.foldr (fun a acc => if a ∈ acc then acc else a :: acc) l₂

/-- `PyPIIndexManager.get_all_packages`: `self._local_index | self._remote_index`. -/
def get_all_packages (st : IndexState) : List (List Nat) :=
  pyUnion st.localIndex st.remoteIndex

/-- `PyPIIndexManager.list_packages`: `sorted(self.get_all_packages())`. -/
def list_packages (st : IndexState) : List (List Nat) :=
  pySortedList (get_all_packages st)

/-- `PyPIIndexManager.is_index_expired`: last update absent, or
    `datetime.now() - self.last_index_update > self.cache_ttl`. -/
def is_index_expired (st : IndexState) (now : Int) : Bool :=
  match st.lastIndexUpdate with
  | none => true
  | some t => decide (now - t > st.cacheTtl)

/-- `PyPIIndexManager.update_local_index`: `self._local_index.add(package_name)`
    followed by `self._save_index()`, which touches no in-memory field. -/
def update_local_index (st : IndexState) (name : List Nat) : IndexState :=
  { st with localIndex := st.localIndex.insert name }

/-- `PyPIIndexManager.remove_from_local_index`:
    `self._local_index.discard(package_name)` followed by `self._save_index()`. -/
def remove_from_local_index (st : IndexState) (name : List Nat) : IndexState :=
  { st with localIndex := st.localIndex.erase name }

/-- `PyPIIndexManager.update_remote_index`: wholesale replacement of the
    remote set and `last_index_update = datetime.now()`. -/
def update_remote_index (st : IndexState) (packages : List (List Nat))
    (now : Int) : IndexState :=
  { st with remoteIndex := packages, lastIndexUpdate := some now }

/-- Value found under the `"last_update"` key of the persisted snapshot.
    `missing`: the key is absent, so `data["last_update"]` raises `KeyError`;
    `falsy`: the key holds `null` or an empty string, so the conditional
    expression yields `None` without parsing; `validIso t`: an ISO string
    parsing to time `t`; `invalidIso`: a truthy string on which
    `datetime.fromisoformat` raises. -/
inductive LastUpdateField
  | missing
  | falsy
  | validIso (t : Int)
  | invalidIso
deriving DecidableEq

/-- A parsed snapshot object.  The two package lists model
    `data.get("local_packages", [])` and `data.get("remote_packages", [])`,
    so an absent key falls back to the empty list without raising. -/
structure SnapshotJson where
  local_packages : Option (List (List Nat))
  remote_packages : Option (List (List Nat))
  last_update : LastUpdateField
deriving DecidableEq

/-- Outcome of reading the snapshot file at the start of `init_index`. -/
inductive SnapshotRead
  | noFile
  | readError
  | parseError
  | parsed (j : SnapshotJson)
deriving DecidableEq

/-- `PyPIIndexManager.init_index`.  The `try` block assigns
    `_local_index`, then `_remote_index`, then `last_index_update`; every
    exception is caught and logged, so a `KeyError` from
    `data["last_update"]` or a `ValueError` from `fromisoformat` leaves the
    first two assignments in place. -/
def init_index (st : IndexState) (r : SnapshotRead) : IndexState :=
  match r with
  | .noFile => st
  | .readError => st
  | .parseError => st
  | .parsed j =>
    let st1 : IndexState := { st with localIndex := (j.local_packages.getD []).dedup }
    let st2 : IndexState := { st1 with remoteIndex := (j.remote_packages.getD []).dedup }
    match j.last_update with
    | .missing => st2
    | .invalidIso => st2
    | .falsy => { st2 with lastIndexUpdate := none }
    | .validIso t => { st2 with lastIndexUpdate := some t }

/-! ### Transport and link extraction (external collaborators) -/

/-- One anchor element as surfaced by BeautifulSoup: `text` is
    `link.string` (absent when the element has no direct string) and
    `href` is `link.get("href")`. -/
structure Link where
  text : Option (List Nat)
  href : Option (List Nat)
deriving DecidableEq

/-- Result of one `DownloadClient.download(url)` call: `ok content`
    (with `ok []` covering both `None` and empty bytes, which the call
    sites treat identically as falsy), or `exn` for a raised exception. -/
inductive FetchR
  | ok (content : List Nat)
  | exn
deriving DecidableEq

/-- The external transport and HTML parser, abstracted as oracles:
    `fetch` maps a URL to the download outcome and `extractLinks` maps page
    content to the anchors BeautifulSoup finds in it. -/
structure Transport where
  fetch : List Nat → FetchR
  extractLinks : List Nat → List Link

/-! ### ArtifactCache (PyPIService.get_package and helpers) -/

/-- On-disk artifact storage: a map from path segments
    `[normalizedName, version, normalizedFilename]` under the storage root
    to file bytes. -/
abbrev Storage := List (List (List Nat) × List Nat)

/-- The deterministic storage path
    `storage_path / normalized_name / version / normalized_filename`
    computed at the top of `PyPIService.get_package`. -/
def storagePathSegs (name version filename : List Nat) : List (List Nat) :=
  [normalize_package_name name, version, normalize_filename filename]

/-- The per-package listing URL `f"{source_url}/{normalized_path}/"` used
    for a simple-style mirror, with `source_url` already right-stripped. -/
def listingUrl (source name : List Nat) : List Nat :=
  rstripSlash source ++ 47 :: (normalize_package_path name ++ [47])

/-- The predictable artifact URL
    `f"{source_url}/packages/{normalized_path}/{version}/{filename}"`
    used for a non-simple mirror. -/
def directUrl (source name version filename : List Nat) : List Nat :=
  rstripSlash source ++ codes "/packages/" ++ normalize_package_path name ++
    47 :: (version ++ 47 :: filename)

/-- The body of the `for link in soup.find_all("a")` loop in
    `_download_from_sources`: the anchor text (empty when absent) with
    underscores replaced by hyphens must be non-empty and contain the
    normalized target filename as a substring. -/
def linkMatches (nf : List Nat) (l : Link) : Bool :=
  let t := replaceChar 95 45 (l.text.getD [])
  !t.isEmpty && containsSub nf t

/-- The download URL selected from a listing page: the `href` of the first
    matching anchor; `none` when no anchor matches or when the matching
    anchor's `href` is absent or empty (`if not file_url: continue`). -/
def selectedFileUrl (links : List Link) (nf : List Nat) : Option (List Nat) :=
  match links.find? (linkMatches nf) with
  | none => none
  | some l =>
    match l.href with
    | none => none
    | some h => if h.isEmpty then none else some h

/-- One iteration of the source loop of
    `PyPIService._download_from_sources`: the successful content if this
    mirror serves the file, together with the list of URLs fetched from it
    (the call trace of the transport). -/
def download_from_source (tr : Transport) (name version filename source : List Nat) :
    Option (List Nat) × List (List Nat) :=
  let u := rstripSlash source
  if isSimpleSource u then
    let indexUrl := listingUrl source name
    match tr.fetch indexUrl with
    | .exn => (none, [indexUrl])
    | .ok c =>
      if c.isEmpty then (none, [indexUrl])
      else
        match selectedFileUrl (tr.extractLinks c) (normalize_filename filename) with
        | none => (none, [indexUrl])
        | some fileUrl =>
          match tr.fetch fileUrl with
          | .exn => (none, [indexUrl, fileUrl])
          | .ok content =>
            (if content.isEmpty then none else some content, [indexUrl, fileUrl])
  else
    let fileUrl := directUrl source name version filename
    match tr.fetch fileUrl with
    | .exn => (none, [fileUrl])
    | .ok content => (if content.isEmpty then none else some content, [fileUrl])

/-- `PyPIService._download_from_sources`: try each configured mirror in
    order; the first mirror yielding non-empty content wins; per-mirror
    failures (exception, empty content, no matching link) fall through to
    the next mirror.  Also returns the full transport call trace. -/
def download_from_sources (tr : Transport) (name version filename : List Nat) :
    List (List Nat) → Option (List Nat) × List (List Nat)
  | [] => (none, [])
  | s :: rest =>
    let res := download_from_source tr name version filename s
    match res.1 with
    | some c => (some c, res.2)
    | none =>
      let r := download_from_sources tr name version filename rest
      (r.1, res.2 ++ r.2)

/-- Result of `PyPIService.get_package`: either the artifact bytes or the
    `HTTPException` raised, together with the storage state after the call
    and the transport call trace. -/
structure GetResult where
  result : Except (Nat × List Nat) (List Nat)
  storage : Storage
  calls : List (List Nat)

/-- Detail string of the 404 raised by `get_package`:
    `f"Package {package_name} version {version} not found"`. -/
def notFoundDetail (name version : List Nat) : List Nat :=
  codes "Package " ++ name ++ codes " version " ++ version ++ codes " not found"

/-- `PyPIService.get_package`: serve from the deterministic storage path on
    a hit; otherwise drive `_download_from_sources`, persisting and
    returning the first success, and raise
    `HTTPException(status_code=404, ...)` when every mirror fails. -/
def get_package (tr : Transport) (sources : List (List Nat)) (storage : Storage)
    (name version filename : List Nat) : GetResult :=
  let path := storagePathSegs name version filename
  match storage.lookup path with
  | some b => ⟨.ok b, storage, []⟩
  | none =>
    let dl := download_from_sources tr name version filename sources
    match dl.1 with
    | some content => ⟨.ok content, (path, content) :: storage, dl.2⟩
    | none => ⟨.error (404, notFoundDetail name version), storage, dl.2⟩

/-! ### UpstreamIndexFetcher (PyPIIndexManager.list_upstream_packages) -/

/-- The listing URL computed inside the retry loop:
    `f"{source_url}/simple/" if "/simple" not in source_url else source_url`
    with `source_url` already right-stripped. -/
def upstreamListingUrl (source : List Nat) : List Nat :=
  let u := rstripSlash source
  if isSimpleSource u then u else u ++ codes "/simple/"

/-- `[link.string for link in soup.find_all("a") if link.string]`:
    the non-falsy anchor texts of a listing page. -/
def anchorTexts (links : List Link) : List (List Nat) :=
  links.filterMap (fun l =>
    match l.text with
    | none => none
    | some t => if t.isEmpty then none else some t)

/-- The `while retries < max_retries` loop of
    `PyPIIndexManager.list_upstream_packages` for one mirror, with
    `max_retries = 3`.  The transport is indexed by the URL and by the
    number of download calls already made on this mirror.  `retries` is
    incremented only in the `except` branch; a falsy download result loops
    again with `retries` unchanged.  The `fuel` argument bounds the number
    of iterations modelled: `none` means the loop is still running after
    `fuel` iterations, `some none` that the mirror was exhausted, and
    `some (some pkgs)` that the loop returned `sorted(packages)`. -/
def upstreamMirrorLoop (t : List Nat → Nat → FetchR) (extract : List Nat → List Link)
    (source : List Nat) : Nat → Nat → Nat → Option (Option (List (List Nat)))
  | _, _, 0 => none
  | callIdx, retries, fuel + 1 =>
    if retries < 3 then
      match t (upstreamListingUrl source) callIdx with
      | .exn => upstreamMirrorLoop t extract source (callIdx + 1) (retries + 1) fuel
      | .ok c =>
        if c.isEmpty then upstreamMirrorLoop t extract source (callIdx + 1) retries fuel
        else some (some (pySortedList (anchorTexts (extract c))))
    else some none

/-- `PyPIIndexManager.list_upstream_packages`: run the retry loop on each
    configured mirror in order; the first mirror that yields content wins;
    when every mirror is exhausted the function returns `[]`.  `none`
    propagates a mirror loop that is still running after `fuel`
    iterations. -/
def list_upstream_packages (t : List Nat → Nat → FetchR)
    (extract : List Nat → List Link) (fuel : Nat) :
    List (List Nat) → Option (List (List Nat))
  | [] => some []
  | s :: rest =>
    match upstreamMirrorLoop t extract s 0 0 fuel with
    | none => none
    | some (some pkgs) => some pkgs
    | some none => list_upstream_packages t extract fuel rest

/-! ### Fixtures used by concrete witnesses -/

/-- Pointwise form of `normalize_package_name`: separators become hyphens,
    everything else is lowercased. -/
def normNameChar (c : Nat) : Nat := if c = 95 ∨ c = 32 then 45 else lowerChar c

/-- A transport on which every download raises, and pages carry no links. -/
def exnTransport : Transport := ⟨fun _ => FetchR.exn, fun _ => []⟩

/-- A storage tree already holding `foo/1.0/foo-1.0.tar.gz`. -/
def hitStorage : Storage :=
  [([codes "foo", codes "1.0", codes "foo-1.0.tar.gz"], codes "DATA")]

/-- The index state of the spec scenario: local set holding foo, remote set
    holding bar and foo. -/
def st7 : IndexState := ⟨[codes "foo"], [codes "bar", codes "foo"], none, 3600⟩

/-- A simple-style mirror base URL. -/
def c6Source : List Nat := codes "https://mirror.example/simple"

/-- Content of the per-package listing page served by `c6Transport`. -/
def c6Page : List Nat := codes "PAGE"

/-- Download URL carried by the matching anchor of the listing page. -/
def c6DlUrl : List Nat := codes "https://files.example/foo-1.0.tar.gz"

/-- A non-matching anchor preceding the match on the listing page. -/
def c6Link1 : Link :=
  ⟨some (codes "other-2.0.tar.gz"), some (codes "https://files.example/other")⟩

/-- The first matching anchor: its text hyphen-normalizes to
    foo-1.0.tar.gz, which contains the normalized target filename. -/
def c6Link2 : Link := ⟨some (codes "foo_1.0.tar.gz"), some c6DlUrl⟩

/-- A transport serving the listing page for foo on `c6Source` and the
    artifact bytes at `c6DlUrl`. -/
def c6Transport : Transport :=
  ⟨fun u =>
    if u = listingUrl c6Source (codes "foo") then FetchR.ok c6Page
    else if u = c6DlUrl then FetchR.ok (codes "BYTES")
    else FetchR.exn,
   fun c => if c = c6Page then [c6Link1, c6Link2] else []⟩
theorem lexLe_total : ∀ a b, lexLe a b = true ∨ lexLe b a = true := by
  intro a
  induction a with
  | nil => intro b; left; rfl
  | cons x xs ih =>
    intro b
    cases b with
    | nil => right; rfl
    | cons y ys =>
      by_cases hxy : x < y
      · left; simp [lexLe, hxy]
      · by_cases hyx : y < x
        · right; simp [lexLe, hyx]
        · have hx : ¬ y < x := hyx
          rcases ih ys with h | h
          · left; simp [lexLe, hxy, hyx, h]
          · right; simp [lexLe, hxy, hyx, h]

theorem lexLe_trans : ∀ a b c, lexLe a b = true → lexLe b c = true →
    lexLe a c = true := by
  intro a
  induction a with
  | nil => intro b c _ _; rfl
  | cons x xs ih =>
    intro b c hab hbc
    cases b with
    | nil => simp [lexLe] at hab
    | cons y ys =>
      cases c with
      | nil => simp [lexLe] at hbc
      | cons z zs =>
        simp only [lexLe] at hab hbc ⊢
        split at hab
        · rename_i hxy
          split at hbc
          · rename_i hyz
            simp [Nat.lt_trans hxy hyz]
          · split at hbc
            · simp at hbc
            · rename_i hyz hzy
              have hyz' : y = z := by omega
              subst hyz'
              simp [hxy]
        · split at hab
          · simp at hab
          · rename_i hxy hyx
            have hxy' : x = y := by omega
            subst hxy'
            split at hbc
            · rename_i hxz
              simp [hxz]
            · split at hbc
              · simp at hbc
              · rename_i hxz hzx
                have hxz' : x = z := by omega
                subst hxz'
                simp [Nat.lt_irrefl]
                exact ih ys zs hab hbc

instance : IsTotal (List Nat) lexLeR := ⟨fun a b => lexLe_total a b⟩

instance : IsTrans (List Nat) lexLeR := ⟨fun a b c => lexLe_trans a b c⟩


/-! ### Helper lemmas -/

theorem isPrefixOf_append_self : ∀ (n s : List Nat), n.isPrefixOf (n ++ s) = true := by
  intro n
  induction n with
  | nil => intro s; cases s <;> rfl
  | cons c rest ih => intro s; simp [List.isPrefixOf, ih]

theorem containsSub_append (n : List Nat) :
    ∀ (pre suf : List Nat), containsSub n (pre ++ (n ++ suf)) = true := by
  intro pre
  induction pre with
  | nil =>
    intro suf
    cases n with
    | nil => cases suf <;> simp [containsSub, List.isPrefixOf]
    | cons a as => simp [containsSub, isPrefixOf_append_self]
  | cons c rest ih =>
    intro suf
    simp [containsSub, ih suf]

theorem download_from_sources_none (tr : Transport) (name version filename : List Nat) :
    ∀ sources : List (List Nat),
      (∀ s ∈ sources, (download_from_source tr name version filename s).1 = none) →
      (download_from_sources tr name version filename sources).1 = none := by
  intro sources
  induction sources with
  | nil => intro _; rfl
  | cons s rest ih =>
    intro h
    have hs := h s (by simp)
    simp only [download_from_sources, hs]
    exact ih (fun x hx => h x (by simp [hx]))

theorem upstreamMirrorLoop_empty (extract : List Nat → List Link) (src : List Nat) :
    ∀ (fuel callIdx : Nat),
      upstreamMirrorLoop (fun _ _ => FetchR.ok []) extract src callIdx 0 fuel = none := by
  intro fuel
  induction fuel with
  | zero => intro callIdx; rfl
  | succ n ih => intro callIdx; simp [upstreamMirrorLoop, ih]

/-! ### Claim theorems -/

/-- C1 (refutation of termination): with a mirror whose downloads always
    come back falsy (empty or None content, which is exactly what
    DownloadClient returns on any network failure or non-200 status), the
    retry loop of `list_upstream_packages` never increments `retries` —
    that happens only in the `except` branch — so it re-attempts the same
    mirror forever: for every iteration bound the call is still running,
    never moving to the next mirror and never returning the empty list. -/
theorem c1_upstream_retry_diverges :
    ∀ (extract : List Nat → List Link) (fuel : Nat),
      list_upstream_packages (fun _ _ => FetchR.ok []) extract fuel
        [codes "https://mirror.example"] = none := by
  intro extract fuel
  simp [list_upstream_packages, upstreamMirrorLoop_empty]

/-- C2: when the storage path misses and every configured mirror fails to
    resolve or fetch, `get_package` raises the 404 `HTTPException` whose
    detail names the requested package and version; no bytes are returned
    and the storage tree is unchanged. -/
theorem c2_all_mirrors_fail_not_found :
    ∀ (tr : Transport) (sources : List (List Nat)) (storage : Storage)
      (name version filename : List Nat),
      storage.lookup (storagePathSegs name version filename) = none →
      (∀ s ∈ sources, (download_from_source tr name version filename s).1 = none) →
      (get_package tr sources storage name version filename).result =
          Except.error (404, notFoundDetail name version) ∧
      (get_package tr sources storage name version filename).storage = storage ∧
      containsSub name (notFoundDetail name version) = true ∧
      containsSub version (notFoundDetail name version) = true := by
  intro tr sources storage name version filename hmiss hfail
  have hd := download_from_sources_none tr name version filename sources hfail
  refine ⟨?_, ?_, ?_, ?_⟩
  · simp [get_package, hmiss, hd]
  · simp [get_package, hmiss, hd]
  · have he : notFoundDetail name version =
        codes "Package " ++ (name ++ (codes " version " ++ (version ++ codes " not found"))) := by
      simp [notFoundDetail]
    rw [he]
    exact containsSub_append name (codes "Package ") _
  · have he : notFoundDetail name version =
        (codes "Package " ++ name ++ codes " version ") ++ (version ++ codes " not found") := by
      simp [notFoundDetail]
    rw [he]
    exact containsSub_append version _ _

/-- C2 witness: the spec scenario — all mirrors return transport errors
    for fetchArtifact of x 1.0 x-1.0.tar.gz, and the result is the 404. -/
theorem c2_witness :
    (∀ s ∈ [codes "https://mirror.example"],
      (download_from_source exnTransport (codes "x") (codes "1.0")
        (codes "x-1.0.tar.gz") s).1 = none) ∧
    (get_package exnTransport [codes "https://mirror.example"] []
        (codes "x") (codes "1.0") (codes "x-1.0.tar.gz")).result =
      Except.error (404, notFoundDetail (codes "x") (codes "1.0")) :=
  ⟨by decide,
   (c2_all_mirrors_fail_not_found exnTransport [codes "https://mirror.example"] []
      (codes "x") (codes "1.0") (codes "x-1.0.tar.gz") rfl (by decide)).1⟩

/-- C3: when a file already exists at the deterministic storage path,
    `get_package` returns exactly its bytes, performs no transport call,
    and leaves the storage tree unchanged. -/
theorem c3_cache_hit_no_network :
    ∀ (tr : Transport) (sources : List (List Nat)) (storage : Storage)
      (name version filename b : List Nat),
      storage.lookup (storagePathSegs name version filename) = some b →
      get_package tr sources storage name version filename = ⟨.ok b, storage, []⟩ := by
  intro tr sources storage name version filename b h
  simp [get_package, h]

/-- C3 witness: with `foo/1.0/foo-1.0.tar.gz` already stored, the call
    returns the stored bytes with an empty transport trace, even on a
    transport where every download would raise. -/
theorem c3_witness :
    hitStorage.lookup (storagePathSegs (codes "foo") (codes "1.0")
        (codes "foo-1.0.tar.gz")) = some (codes "DATA") ∧
    get_package exnTransport [codes "https://mirror.example"] hitStorage
        (codes "foo") (codes "1.0") (codes "foo-1.0.tar.gz") =
      ⟨.ok (codes "DATA"), hitStorage, []⟩ :=
  ⟨by decide,
   c3_cache_hit_no_network exnTransport [codes "https://mirror.example"] hitStorage
     (codes "foo") (codes "1.0") (codes "foo-1.0.tar.gz") (codes "DATA") (by decide)⟩

/-- C4 (refutation): the claim says every maximal run of underscores and
    spaces yields a single hyphen, but `normalize_package_name` replaces
    each separator character independently: on a__b the code produces
    a--b while the spec-side run-collapsing normalization produces a-b. -/
theorem c4_counterexample :
    normalize_package_name (codes "a__b") = codes "a--b" ∧
    specNormalizeName (codes "a__b") = codes "a-b" ∧
    normalize_package_name (codes "a__b") ≠ specNormalizeName (codes "a__b") := by
  decide

theorem normNameChar_map :
    ∀ s : List Nat, normalize_package_name s = s.map normNameChar := by
  intro s
  simp only [normalize_package_name, replaceChar, pyLower, List.map_map]
  congr 1
  funext c
  simp only [Function.comp]
  by_cases h95 : c = 95
  · subst h95; decide
  · by_cases h32 : c = 32
    · subst h32; decide
    · have h1 : lowerChar c ≠ 95 := by unfold lowerChar; split <;> omega
      have h2 : lowerChar c ≠ 32 := by unfold lowerChar; split <;> omega
      simp [normNameChar, h1, h2, h95, h32]

theorem normNameChar_idem (c : Nat) : normNameChar (normNameChar c) = normNameChar c := by
  by_cases hc : c = 95 ∨ c = 32
  · have hval : normNameChar c = 45 := by rw [normNameChar, if_pos hc]
    rw [hval]; decide
  · have hval : normNameChar c = lowerChar c := by rw [normNameChar, if_neg hc]
    push_neg at hc
    have h1 : lowerChar c ≠ 95 := by unfold lowerChar; split <;> omega
    have h2 : lowerChar c ≠ 32 := by unfold lowerChar; split <;> omega
    rw [hval, normNameChar, if_neg (by tauto)]
    unfold lowerChar
    split_ifs <;> omega

/-- C4 (amended): `normalize_package_name` lowercases and replaces each
    underscore and each space individually by one hyphen — character by
    character, so a run of k separators yields k hyphens. -/
theorem c4_amended :
    ∀ s : List Nat, normalize_package_name s = s.map normNameChar := by
  intro s
  exact normNameChar_map s

/-- C9 (refutation): a snapshot that parses as JSON but lacks the required
    last_update key is a parse failure in the claim's sense, yet
    `init_index` has already assigned the local and remote sets when
    `data["last_update"]` raises `KeyError`: the state is not left as it
    was before the call. -/
theorem c9_counterexample :
    init_index ⟨[], [], none, 3600⟩
        (SnapshotRead.parsed ⟨some [codes "a"], some [], LastUpdateField.missing⟩) ≠
      ⟨[], [], none, 3600⟩ ∧
    (init_index ⟨[], [], none, 3600⟩
        (SnapshotRead.parsed ⟨some [codes "a"], some [], LastUpdateField.missing⟩)).localIndex =
      [codes "a"] := by
  decide

/-- C9 (amended): on an unreadable file or invalid JSON, `init_index`
    leaves the whole state unchanged and no error propagates; on a missing
    or unparseable last_update field, the local and remote sets have
    already been assigned from the snapshot and only `last_index_update`
    keeps its prior value. -/
theorem c9_amended :
    ∀ (st : IndexState) (r : SnapshotRead),
      ((r = SnapshotRead.noFile ∨ r = SnapshotRead.readError ∨ r = SnapshotRead.parseError) →
        init_index st r = st) ∧
      (∀ j : SnapshotJson, r = SnapshotRead.parsed j →
        (j.last_update = LastUpdateField.missing ∨ j.last_update = LastUpdateField.invalidIso) →
        (init_index st r).lastIndexUpdate = st.lastIndexUpdate ∧
        (init_index st r).localIndex = (j.local_packages.getD []).dedup ∧
        (init_index st r).remoteIndex = (j.remote_packages.getD []).dedup) := by
  intro st r
  constructor
  · rintro (rfl | rfl | rfl) <;> rfl
  · rintro j rfl (h | h) <;> simp [init_index, h]

/-- C9 witness: the amended statement applied to the empty state, for an
    unreadable file and for a snapshot missing the last_update key. -/
theorem c9_witness :
    init_index ⟨[], [], none, 3600⟩ SnapshotRead.readError = ⟨[], [], none, 3600⟩ ∧
    ((init_index ⟨[], [], none, 3600⟩
        (SnapshotRead.parsed ⟨some [codes "a"], some [], LastUpdateField.missing⟩)).lastIndexUpdate =
      (⟨[], [], none, 3600⟩ : IndexState).lastIndexUpdate ∧
     (init_index ⟨[], [], none, 3600⟩
        (SnapshotRead.parsed ⟨some [codes "a"], some [], LastUpdateField.missing⟩)).localIndex =
      ((some [codes "a"]).getD []).dedup ∧
     (init_index ⟨[], [], none, 3600⟩
        (SnapshotRead.parsed ⟨some [codes "a"], some [], LastUpdateField.missing⟩)).remoteIndex =
      ((some ([] : List (List Nat))).getD []).dedup) :=
  ⟨(c9_amended ⟨[], [], none, 3600⟩ SnapshotRead.readError).1 (Or.inr (Or.inl rfl)),
   (c9_amended ⟨[], [], none, 3600⟩ _).2
     ⟨some [codes "a"], some [], LastUpdateField.missing⟩ rfl (Or.inl rfl)⟩

/-- C10: `update_local_index` and `remove_from_local_index` modify only the
    local set — the remote set, the last-update timestamp and the TTL are
    untouched — so the verdict of `is_index_expired` at any fixed clock
    value is unchanged by a local mutation. -/
theorem c10_local_mutation_frame :
    ∀ (st : IndexState) (name : List Nat) (now : Int),
      (update_local_index st name).remoteIndex = st.remoteIndex ∧
      (update_local_index st name).lastIndexUpdate = st.lastIndexUpdate ∧
      (update_local_index st name).cacheTtl = st.cacheTtl ∧
      is_index_expired (update_local_index st name) now = is_index_expired st now ∧
      (remove_from_local_index st name).remoteIndex = st.remoteIndex ∧
      (remove_from_local_index st name).lastIndexUpdate = st.lastIndexUpdate ∧
      (remove_from_local_index st name).cacheTtl = st.cacheTtl ∧
      is_index_expired (remove_from_local_index st name) now = is_index_expired st now := by
  intro st name now
  exact ⟨rfl, rfl, rfl, rfl, rfl, rfl, rfl, rfl⟩

theorem mem_pyUnion (x : List Nat) :
    ∀ (l₁ l₂ : List (List Nat)), x ∈ pyUnion l₁ l₂ ↔ x ∈ l₁ ∨ x ∈ l₂ := by
  intro l₁ l₂
  induction l₁ with
  | nil => simp [pyUnion]
  | cons a rest ih =>
    simp only [pyUnion, List.foldr_cons] at ih ⊢
    by_cases h : a ∈ rest.foldr (fun a acc => if a ∈ acc then acc else a :: acc) l₂
    · rw [if_pos h]
      constructor
      · intro hx
        rcases ih.mp hx with h1 | h1
        · exact Or.inl (List.mem_cons_of_mem a h1)
        · exact Or.inr h1
      · rintro (h1 | h1)
        · rcases List.mem_cons.mp h1 with rfl | h2
          · exact h
          · exact ih.mpr (Or.inl h2)
        · exact ih.mpr (Or.inr h1)
    · rw [if_neg h]
      constructor
      · intro hx
        rcases List.mem_cons.mp hx with rfl | h2
        · exact Or.inl (List.mem_cons_self x rest)
        · rcases ih.mp h2 with h3 | h3
          · exact Or.inl (List.mem_cons_of_mem a h3)
          · exact Or.inr h3
      · rintro (h1 | h1)
        · rcases List.mem_cons.mp h1 with rfl | h2
          · exact List.mem_cons_self x _
          · exact List.mem_cons_of_mem a (ih.mpr (Or.inl h2))
        · exact List.mem_cons_of_mem a (ih.mpr (Or.inr h1))

theorem nodup_pyUnion :
    ∀ (l₁ l₂ : List (List Nat)), l₂.Nodup → (pyUnion l₁ l₂).Nodup := by
  intro l₁ l₂ h₂
  induction l₁ with
  | nil => simpa [pyUnion] using h₂
  | cons a rest ih =>
    simp only [pyUnion, List.foldr_cons] at ih ⊢
    by_cases h : a ∈ rest.foldr (fun a acc => if a ∈ acc then acc else a :: acc) l₂
    · rw [if_pos h]; exact ih
    · rw [if_neg h]; exact List.Nodup.cons h ih

/-- C7: at every state, the externally visible package list returned by
    `list_packages` is the sorted union of the local and remote sets:
    membership is exactly membership in either set, the output is
    lexicographically sorted and duplicate-free; the spec scenario with
    local foo and remote bar, foo yields the list bar, foo. -/
theorem c7_list_packages_sorted_union :
    (∀ st : IndexState, st.remoteIndex.Nodup →
      ((∀ x, x ∈ list_packages st ↔ x ∈ st.localIndex ∨ x ∈ st.remoteIndex) ∧
       List.Sorted lexLeR (list_packages st) ∧ (list_packages st).Nodup)) ∧
    list_packages st7 = [codes "bar", codes "foo"] := by
  constructor
  · intro st h2
    refine ⟨?_, ?_, ?_⟩
    · intro x
      rw [list_packages, pySortedList, List.mem_insertionSort, get_all_packages,
        mem_pyUnion]
    · exact List.sorted_insertionSort lexLeR _
    · exact (List.perm_insertionSort lexLeR _).nodup_iff.mpr
        (nodup_pyUnion st.localIndex st.remoteIndex h2)
  · decide

/-- C7 witness: the general statement applied to the scenario state. -/
theorem c7_witness :
    List.Sorted lexLeR (list_packages st7) ∧ (list_packages st7).Nodup ∧
    (codes "bar" ∈ list_packages st7 ↔
      codes "bar" ∈ st7.localIndex ∨ codes "bar" ∈ st7.remoteIndex) :=
  ⟨(c7_list_packages_sorted_union.1 st7 (by decide)).2.1,
   (c7_list_packages_sorted_union.1 st7 (by decide)).2.2,
   (c7_list_packages_sorted_union.1 st7 (by decide)).1 (codes "bar")⟩

theorem find?_first_match {p : Link → Bool} :
    ∀ (pre : List Link) (l : Link) (post : List Link),
      (∀ x ∈ pre, p x = false) → p l = true →
      (pre ++ l :: post).find? p = some l := by
  intro pre
  induction pre with
  | nil =>
    intro l post _ hl
    simpa using List.find?_cons_of_pos _ hl
  | cons a rest ih =>
    intro l post h hl
    have ha : p a = false := h a (by simp)
    simp only [List.cons_append]
    rw [List.find?_cons_of_neg _ (by simp [ha])]
    exact ih l post (fun x hx => h x (by simp [hx])) hl

/-- C6: on a simple-style listing-only mirror, `get_package`'s per-mirror
    resolution fetches the per-package listing page at mirror slash
    normalizedPath slash, and selects the first anchor whose text — after
    replacing underscores by hyphens, the hyphenation rule applied to
    filenames — contains the normalized target filename as a substring:
    the first matching anchor's href is the URL fetched next and its
    outcome is the mirror's result; when no anchor matches, the mirror is
    skipped with only the listing page fetched. -/
theorem c6_simple_listing_first_match :
    ∀ (tr : Transport) (name version filename source c : List Nat)
      (pre : List Link) (l : Link) (post : List Link) (h : List Nat),
      isSimpleSource (rstripSlash source) = true →
      tr.fetch (listingUrl source name) = FetchR.ok c →
      c.isEmpty = false →
      ((tr.extractLinks c = pre ++ l :: post →
        (∀ x ∈ pre, linkMatches (normalize_filename filename) x = false) →
        linkMatches (normalize_filename filename) l = true →
        l.href = some h → h.isEmpty = false →
        (download_from_source tr name version filename source).2 =
            [listingUrl source name, h] ∧
        (download_from_source tr name version filename source).1 =
          (match tr.fetch h with
           | FetchR.exn => none
           | FetchR.ok content => if content.isEmpty then none else some content)) ∧
       ((∀ x ∈ tr.extractLinks c, linkMatches (normalize_filename filename) x = false) →
        (download_from_source tr name version filename source).1 = none ∧
        (download_from_source tr name version filename source).2 =
            [listingUrl source name])) := by
  intro tr name version filename source c pre l post h hsimple hfetch hne
  constructor
  · intro hlinks hpre hl hhref hh
    have hsel : selectedFileUrl (tr.extractLinks c) (normalize_filename filename) = some h := by
      rw [selectedFileUrl, hlinks, find?_first_match pre l post hpre hl]
      simp [hhref, hh]
    rw [download_from_source]
    simp only [hsimple, if_true, hfetch, hne, Bool.false_eq_true, if_false, hsel]
    cases tr.fetch h <;> simp
  · intro hnone
    have hsel : selectedFileUrl (tr.extractLinks c) (normalize_filename filename) = none := by
      rw [selectedFileUrl, List.find?_eq_none.mpr (by simpa using hnone)]
    rw [download_from_source]
    simp [hsimple, hfetch, hne, hsel]

/-- C6 witness: a listing page whose first anchor does not match and whose
    second anchor's text foo_1.0.tar.gz hyphen-normalizes to contain
    foo-1.0.tar.gz; its href is fetched and its bytes are the result. -/
theorem c6_witness :
    (download_from_source c6Transport (codes "foo") (codes "1.0")
        (codes "foo-1.0.tar.gz") c6Source).2 =
      [listingUrl c6Source (codes "foo"), c6DlUrl] ∧
    (download_from_source c6Transport (codes "foo") (codes "1.0")
        (codes "foo-1.0.tar.gz") c6Source).1 = some (codes "BYTES") := by
  have happ := (c6_simple_listing_first_match c6Transport (codes "foo") (codes "1.0")
      (codes "foo-1.0.tar.gz") c6Source c6Page [c6Link1] c6Link2 [] c6DlUrl
      (by decide) (by decide) (by decide)).1
      (by decide) (by decide) (by decide) (by decide) (by decide)
  refine ⟨happ.1, Eq.trans happ.2 (by decide)⟩

theorem splitFirstDot_none_iff : ∀ l : List Nat, splitFirstDot l = none ↔ 46 ∉ l := by
  intro l
  induction l with
  | nil => simp [splitFirstDot]
  | cons c cs ih =>
    rw [splitFirstDot]
    by_cases hc : c = 46
    · subst hc; simp
    · rw [if_neg hc]
      constructor
      · intro h hm
        rcases List.mem_cons.mp hm with h46 | h46
        · exact hc h46.symm
        · exact (ih.mp (Option.map_eq_none'.mp h)) h46
      · intro h
        rw [Option.map_eq_none']
        exact ih.mpr (fun hm => h (List.mem_cons_of_mem c hm))

theorem splitFirstDot_append (b : List Nat) :
    ∀ a : List Nat, 46 ∉ a → splitFirstDot (a ++ 46 :: b) = some (a, b) := by
  intro a
  induction a with
  | nil => intro _; simp [splitFirstDot]
  | cons c cs ih =>
    intro h
    have hc : c ≠ 46 := fun hh => h (hh ▸ List.mem_cons_self c cs)
    rw [List.cons_append, splitFirstDot, if_neg hc,
      ih (fun hm => h (List.mem_cons_of_mem c hm))]
    rfl

theorem splitFirstDot_some : ∀ (l a b : List Nat),
    splitFirstDot l = some (a, b) → l = a ++ 46 :: b ∧ 46 ∉ a := by
  intro l
  induction l with
  | nil => intro a b h; simp [splitFirstDot] at h
  | cons c cs ih =>
    intro a b h
    rw [splitFirstDot] at h
    by_cases hc : c = 46
    · rw [if_pos hc] at h
      simp only [Option.some.injEq, Prod.mk.injEq] at h
      obtain ⟨h1, h2⟩ := h
      subst hc; subst h2
      rw [← h1]
      exact ⟨rfl, by simp⟩
    · rw [if_neg hc] at h
      rcases hsp : splitFirstDot cs with _ | p
      · rw [hsp] at h; simp at h
      · rw [hsp] at h
        simp only [Option.map_some', Option.some.injEq, Prod.mk.injEq] at h
        obtain ⟨h1, h2⟩ := h
        obtain ⟨hl, hna⟩ := ih p.1 p.2 (by rw [hsp])
        subst h2
        rw [← h1]
        constructor
        · rw [List.cons_append, ← hl]
        · intro hm
          rcases List.mem_cons.mp hm with h46 | h46
          · exact hc h46.symm
          · exact hna h46

theorem pyQuote_eq_self : ∀ l : List Nat, (∀ c ∈ l, quoteSafe c = true) → pyQuote l = l := by
  intro l
  induction l with
  | nil => intro _; rfl
  | cons c rest ih =>
    intro h
    have hc : quoteSafe c = true := h c (by simp)
    simp only [pyQuote, List.map_cons, List.flatten_cons]
    rw [quoteChar, if_pos hc]
    simp only [List.cons_append, List.nil_append]
    exact congrArg (c :: ·) (ih (fun x hx => h x (by simp [hx])))

theorem replaceChar_95_45_idem (s : List Nat) :
    replaceChar 95 45 (replaceChar 95 45 s) = replaceChar 95 45 s := by
  simp only [replaceChar, List.map_map]
  congr 1
  funext c
  by_cases h : c = 95 <;> simp [Function.comp, h]

theorem mem46_replaceChar (s : List Nat) : 46 ∈ replaceChar 95 45 s ↔ 46 ∈ s := by
  simp only [replaceChar, List.mem_map]
  constructor
  · rintro ⟨a, ha, he⟩
    by_cases h : a = 95
    · rw [if_pos h] at he; exact absurd he (by decide)
    · rw [if_neg h] at he; exact he ▸ ha
  · intro h
    exact ⟨46, h, by simp⟩

theorem safe_replaceChar (s : List Nat) (h : ∀ c ∈ s, quoteSafe c = true) :
    ∀ c ∈ replaceChar 95 45 s, quoteSafe c = true := by
  intro c hc
  simp only [replaceChar, List.mem_map] at hc
  obtain ⟨a, ha, he⟩ := hc
  by_cases h95 : a = 95
  · rw [if_pos h95] at he; rw [← he]; decide
  · rw [if_neg h95] at he; exact he ▸ h a ha

theorem normalize_filename_no_dot (s : List Nat) (h : 46 ∉ s) :
    normalize_filename s = pyQuote (replaceChar 95 45 s) := by
  have h1 : splitFirstDot s.reverse = none :=
    (splitFirstDot_none_iff s.reverse).mpr (by simpa using h)
  simp [normalize_filename, h1]

theorem normalize_filename_one_dot (b e : List Nat) (hb : 46 ∉ b) (he : 46 ∉ e) :
    normalize_filename (b ++ 46 :: e) = pyQuote (replaceChar 95 45 b ++ 46 :: e) := by
  have h1 : splitFirstDot (e.reverse ++ 46 :: b.reverse) = some (e.reverse, b.reverse) :=
    splitFirstDot_append _ _ (by simpa using he)
  have h2 : splitFirstDot b.reverse =
      none := (splitFirstDot_none_iff _).mpr (by simpa using hb)
  simp [normalize_filename, h1, h2]

theorem normalize_filename_two_dots (b m e : List Nat) (hm : 46 ∉ m) (he : 46 ∉ e) :
    normalize_filename (b ++ 46 :: (m ++ 46 :: e)) =
      pyQuote (replaceChar 95 45 b ++ 46 :: (m ++ 46 :: e)) := by
  have h1 : splitFirstDot (e.reverse ++ 46 :: (m.reverse ++ 46 :: b.reverse)) =
      some (e.reverse, m.reverse ++ 46 :: b.reverse) :=
    splitFirstDot_append _ _ (by simpa using he)
  have h2 : splitFirstDot (m.reverse ++ 46 :: b.reverse) = some (m.reverse, b.reverse) :=
    splitFirstDot_append _ _ (by simpa using hm)
  simp [normalize_filename, h1, h2]

/-- C8: `normalize_filename` splits off at most the last two dot-delimited
    segments as the extension group, replaces underscores by hyphens in the
    base only — case preserved, extension untouched — rejoins with dots and
    percent-encodes; a filename without dots is hyphenated whole and
    encoded; and the spec scenario holds:
    My_Pkg-1.0.0.tar.gz normalizes to My-Pkg-1.0.0.tar.gz. -/
theorem c8_normalize_filename_structure :
    ∀ (s b m e : List Nat),
      (46 ∉ s → normalize_filename s = pyQuote (replaceChar 95 45 s)) ∧
      (s = b ++ 46 :: e → 46 ∉ b → 46 ∉ e →
        normalize_filename s = pyQuote (replaceChar 95 45 b ++ 46 :: e)) ∧
      (s = b ++ 46 :: (m ++ 46 :: e) → 46 ∉ m → 46 ∉ e →
        normalize_filename s = pyQuote (replaceChar 95 45 b ++ 46 :: (m ++ 46 :: e))) ∧
      normalize_filename (codes "My_Pkg-1.0.0.tar.gz") = codes "My-Pkg-1.0.0.tar.gz" := by
  intro s b m e
  refine ⟨normalize_filename_no_dot s, ?_, ?_, by decide⟩
  · rintro rfl hb he
    exact normalize_filename_one_dot b e hb he
  · rintro rfl hm he
    exact normalize_filename_two_dots b m e hm he

/-- C8 witness: the structure theorem applied to x_y.tar.gz, whose last
    two segments tar.gz form the extension group, and the spec scenario. -/
theorem c8_witness :
    normalize_filename (codes "x_y.tar.gz") =
      pyQuote (replaceChar 95 45 (codes "x_y") ++ 46 :: (codes "tar" ++ 46 :: codes "gz")) ∧
    normalize_filename (codes "My_Pkg-1.0.0.tar.gz") = codes "My-Pkg-1.0.0.tar.gz" :=
  ⟨(c8_normalize_filename_structure (codes "x_y.tar.gz") (codes "x_y")
      (codes "tar") (codes "gz")).2.2.1 (by decide) (by decide) (by decide),
   (c8_normalize_filename_structure (codes "x_y.tar.gz") (codes "x_y")
      (codes "tar") (codes "gz")).2.2.2⟩

/-- C5 (refutation): idempotence fails for `normalize_filename` on the
    printable-ASCII input consisting of one space: the first application
    percent-encodes it to %20 and the second encodes the percent sign
    again, giving %2520. -/
theorem c5_counterexample :
    normalize_filename (codes " ") = codes "%20" ∧
    normalize_filename (normalize_filename (codes " ")) = codes "%2520" ∧
    normalize_filename (normalize_filename (codes " ")) ≠ normalize_filename (codes " ") := by
  decide

/-- C5 (amended): `normalize_package_name` is idempotent on every input;
    `normalize_filename` is idempotent on inputs all of whose characters
    are percent-encoding safe (ASCII alphanumerics and underscore, dot,
    hyphen, tilde, slash); idempotence fails on printable-ASCII inputs
    that require percent-encoding, such as the space. -/
theorem c5_amended :
    (∀ s : List Nat,
      normalize_package_name (normalize_package_name s) = normalize_package_name s) ∧
    (∀ s : List Nat, (∀ c ∈ s, quoteSafe c = true) →
      normalize_filename (normalize_filename s) = normalize_filename s) := by
  constructor
  · intro s
    rw [normNameChar_map, normNameChar_map, List.map_map]
    congr 1
    funext c
    simp [Function.comp, normNameChar_idem]
  · intro s hs
    rcases h1 : splitFirstDot s.reverse with _ | ⟨lastr, restr⟩
    · have h46 : 46 ∉ s := by
        have := (splitFirstDot_none_iff s.reverse).mp h1
        simpa using this
      rw [normalize_filename_no_dot s h46, pyQuote_eq_self _ (safe_replaceChar s hs)]
      have h46' : 46 ∉ replaceChar 95 45 s := fun hm => h46 ((mem46_replaceChar s).mp hm)
      rw [normalize_filename_no_dot _ h46', replaceChar_95_45_idem,
        pyQuote_eq_self _ (safe_replaceChar s hs)]
    · obtain ⟨hrev, hnl⟩ := splitFirstDot_some s.reverse lastr restr h1
      have hs_eq : s = restr.reverse ++ 46 :: lastr.reverse := by
        have := congrArg List.reverse hrev
        simpa using this
      have hbL : 46 ∉ lastr.reverse := by simpa using hnl
      rcases h2 : splitFirstDot restr with _ | ⟨midr, baser⟩
      · have hnr : 46 ∉ restr := (splitFirstDot_none_iff restr).mp h2
        have hbB : 46 ∉ restr.reverse := by simpa using hnr
        have hsB : ∀ c ∈ restr.reverse, quoteSafe c = true := by
          intro c hc
          exact hs c (by rw [hs_eq]; exact List.mem_append_left _ hc)
        have hsL : ∀ c ∈ lastr.reverse, quoteSafe c = true := by
          intro c hc
          exact hs c (by
            rw [hs_eq]
            exact List.mem_append_right _ (List.mem_cons_of_mem _ hc))
        have hsafe : ∀ c ∈ replaceChar 95 45 restr.reverse ++ 46 :: lastr.reverse,
            quoteSafe c = true := by
          intro c hc
          rcases List.mem_append.mp hc with h | h
          · exact safe_replaceChar _ hsB c h
          · rcases List.mem_cons.mp h with rfl | h
            · decide
            · exact hsL c h
        rw [hs_eq, normalize_filename_one_dot _ _ hbB hbL, pyQuote_eq_self _ hsafe]
        have hbB' : 46 ∉ replaceChar 95 45 restr.reverse :=
          fun hm => hbB ((mem46_replaceChar _).mp hm)
        rw [normalize_filename_one_dot _ _ hbB' hbL, replaceChar_95_45_idem,
          pyQuote_eq_self _ hsafe]
      · obtain ⟨hrest, hnm⟩ := splitFirstDot_some restr midr baser h2
        have hs_eq2 : s = baser.reverse ++ 46 :: (midr.reverse ++ 46 :: lastr.reverse) := by
          rw [hs_eq, hrest]
          simp
        have hbM : 46 ∉ midr.reverse := by simpa using hnm
        have hsB : ∀ c ∈ baser.reverse, quoteSafe c = true := by
          intro c hc
          exact hs c (by rw [hs_eq2]; exact List.mem_append_left _ hc)
        have hsM : ∀ c ∈ midr.reverse, quoteSafe c = true := by
          intro c hc
          exact hs c (by
            rw [hs_eq2]
            exact List.mem_append_right _
              (List.mem_cons_of_mem _ (List.mem_append_left _ hc)))
        have hsL : ∀ c ∈ lastr.reverse, quoteSafe c = true := by
          intro c hc
          exact hs c (by
            rw [hs_eq2]
            exact List.mem_append_right _
              (List.mem_cons_of_mem _
                (List.mem_append_right _ (List.mem_cons_of_mem _ hc))))
        have hsafe : ∀ c ∈ replaceChar 95 45 baser.reverse ++
            46 :: (midr.reverse ++ 46 :: lastr.reverse), quoteSafe c = true := by
          intro c hc
          rcases List.mem_append.mp hc with h | h
          · exact safe_replaceChar _ hsB c h
          · rcases List.mem_cons.mp h with rfl | h
            · decide
            · rcases List.mem_append.mp h with h | h
              · exact hsM c h
              · rcases List.mem_cons.mp h with rfl | h
                · decide
                · exact hsL c h
        rw [hs_eq2, normalize_filename_two_dots _ _ _ hbM hbL, pyQuote_eq_self _ hsafe]
        rw [normalize_filename_two_dots _ _ _ hbM hbL, replaceChar_95_45_idem,
          pyQuote_eq_self _ hsafe]

/-- C5 witness: the amended statement applied to foo_bar.tar.gz, an input
    of percent-encoding-safe characters, and to an arbitrary name. -/
theorem c5_witness :
    (∀ c ∈ codes "foo_bar.tar.gz", quoteSafe c = true) ∧
    normalize_filename (normalize_filename (codes "foo_bar.tar.gz")) =
      normalize_filename (codes "foo_bar.tar.gz") ∧
    normalize_package_name (normalize_package_name (codes "My Pkg_2")) =
      normalize_package_name (codes "My Pkg_2") :=
  ⟨by decide, c5_amended.2 (codes "foo_bar.tar.gz") (by decide),
   c5_amended.1 (codes "My Pkg_2")⟩
